/-
Verification of the word-identity resolution and edge-batching pipeline of
`import_wiktextract.py` (German–Persian Wiktionary importer, DE/FA via EN
bridge).  The Python source is shallowly embedded: the mutable `word_cache`
dict becomes an association list threaded through the functions, the MySQL
cursor becomes an explicit behaviour oracle (one record per round trip), and
the main processing loop becomes a fold over a list of parsed input lines.
-/
import Mathlib

namespace Wiktextract

/-- Python's `str.lower()`: lower-case every character. -/
def strLower (s : String) : String := ⟨s.data.map Char.toLower⟩

/-- Python's `str.strip()`: drop leading and trailing whitespace. -/
def strTrim (s : String) : String :=
  ⟨((s.data.dropWhile Char.isWhitespace).reverse.dropWhile
      Char.isWhitespace).reverse⟩

/-- Cache key: (lower-cased word text, language code), as built by
`key = (word.lower(), lang)` in `get_word_id`. -/
abbrev Key := String × String

/-- The in-memory `word_cache` dict: an association list from keys to ids.
Python dict insertion of a fresh key is modelled by prepending. -/
abbrev Cache := List (Key × Nat)

/-- `key in cache` / `cache[key]` lookup. -/
def Cache.find (c : Cache) (k : Key) : Option Nat :=
  (List.find? (fun p => p.1 == k) c).map (fun p => p.2)

/-- `cache[key] = id` for a key not yet present. -/
def Cache.insert (c : Cache) (k : Key) (v : Nat) : Cache :=
  (k, v) :: c

/-- Outcome of one `cursor.execute(SELECT ...)` round trip: a fetched row
(`ok`) or a raised exception (`err`). -/
inductive QueryResult where
  | ok (row : Option Nat)
  | err
  deriving Repr, DecidableEq

/-- Outcome of the `cursor.execute(INSERT INTO words ...)` round trip:
success with `cursor.lastrowid`, an `IntegrityError` with code 1062
(duplicate entry), another `IntegrityError`, or any other exception. -/
inductive InsertResult where
  | ok (lastrowid : Nat)
  | dupErr
  | integrityErr
  | err
  deriving Repr, DecidableEq

/-- Behaviour the database cursor presents to one `get_word_id` call:
the result of the initial SELECT, of the INSERT attempted on a miss,
and of the re-SELECT attempted after a duplicate-entry error. -/
structure DbBehavior where
  selectRes : QueryResult
  insertRes : InsertResult
  reselectRes : QueryResult
  deriving Repr, DecidableEq

/-- A cursor behaviour in which every round trip raises; used where a
behaviour is syntactically required but never reached (dry-run mode). -/
def dummyDb : DbBehavior := ⟨.err, .err, .err⟩

/-- Result of one `get_word_id` call: the returned id (`None` on failure),
the cache as left by the call, and the number of cursor round trips the
call issued. -/
structure ResolveResult where
  id : Option Nat
  cache : Cache
  storeOps : Nat
  deriving Repr, DecidableEq

/-- `get_word_id(cache, word, lang, is_dry_run, cursor)`.
Control flow follows the source: cache hit returns immediately with no
store access; dry-run assigns `len(cache) + 1` and caches it; otherwise
SELECT, then INSERT on a miss, and on `IntegrityError` 1062 a re-SELECT;
every failure path returns `none`. -/
def getWordId (cache : Cache) (word lang : String) (isDryRun : Bool)
    (db : DbBehavior) : ResolveResult :=
  let key : Key := (strLower word, lang)
  match Cache.find cache key with
  | some wid => ⟨some wid, cache, 0⟩
  | none =>
    if isDryRun then
      let fakeId := cache.length + 1
      ⟨some fakeId, Cache.insert cache key fakeId, 0⟩
    else
      match db.selectRes with
      | .err => ⟨none, cache, 1⟩
      | .ok (some wid) => ⟨some wid, Cache.insert cache key wid, 1⟩
      | .ok none =>
        match db.insertRes with
        | .ok rowid => ⟨some rowid, Cache.insert cache key rowid, 2⟩
        | .dupErr =>
          match db.reselectRes with
          | .ok (some wid) => ⟨some wid, Cache.insert cache key wid, 3⟩
          | .ok none => ⟨none, cache, 3⟩
          | .err => ⟨none, cache, 3⟩
        | .integrityErr => ⟨none, cache, 2⟩
        | .err => ⟨none, cache, 2⟩

/-- The per-run counters dict `stats` (the fields the core updates). -/
structure Stats where
  processed_lines : Nat
  errors : Nat
  english_entries : Nat
  de_trans : Nat
  fa_trans : Nat
  both_trans : Nat
  translation_pairs_batched : Nat
  deriving Repr, DecidableEq

/-- All counters at zero, as initialised at the top of `main`. -/
def initStats : Stats := ⟨0, 0, 0, 0, 0, 0, 0⟩

/-- `TRANSLATION_BATCH_SIZE` from the configuration section. -/
def TRANSLATION_BATCH_SIZE : Nat := 1000

/-- `process_batch(conn, batch, is_dry_run, cursor, stats)` restricted to its
observable effect on the counters and the batch list.  `insertOk` tells
whether the bulk `INSERT IGNORE` + commit succeeded (on failure the
transaction is rolled back and the counter untouched).  The `finally:`
clause clears the batch in every case; an empty batch returns early. -/
def process_batch (batch : List (Nat × Nat)) (isDryRun : Bool)
    (insertOk : Bool) (stats : Stats) : Stats × List (Nat × Nat) :=
  if batch.isEmpty then (stats, batch)
  else
    let stats' :=
      if isDryRun then
        { stats with translation_pairs_batched :=
            stats.translation_pairs_batched + batch.length }
      else if insertOk then
        { stats with translation_pairs_batched :=
            stats.translation_pairs_batched + batch.length }
      else stats
    (stats', [])

/-- The durable store: the `words` table (id, word_text, lang_code) with an
auto-increment counter, and the `translations` table of (source_id,
target_id) edges kept duplicate-free by its unique constraint. -/
structure Store where
  words : List (Nat × String × String)
  nextId : Nat
  edges : List (Nat × Nat)
  deriving Repr, DecidableEq

/-- `SELECT id FROM words WHERE word_text = t AND lang_code = l`. -/
def Store.findWord (st : Store) (t l : String) : Option Nat :=
  (List.find? (fun p => p.2.1 == t && p.2.2 == l) st.words).map (fun p => p.1)

/-- `words.lang_code` of a given id (ids are unique in the table). -/
def Store.langOf (st : Store) (id : Nat) : Option String :=
  (List.find? (fun p => p.1 == id) st.words).map (fun p => p.2.2)

/-- One row of an `INSERT IGNORE INTO translations`: a duplicate of an
existing edge is silently skipped. -/
def insertIgnore (es : List (Nat × Nat)) (e : Nat × Nat) : List (Nat × Nat) :=
  if e ∈ es then es else es ++ [e]

/-- `INSERT IGNORE` of a whole batch of edges. -/
def Store.addEdges (st : Store) (batch : List (Nat × Nat)) : Store :=
  { st with edges := batch.foldl insertIgnore st.edges }

/-- The edge pairs produced by the SELECT inside `create_direct_links`:
all (de.id, fa.id) such that edges de→en and en→fa exist with the three
words in languages 'de', 'en', 'fa' respectively. -/
def derivedEdges (st : Store) : List (Nat × Nat) :=
  st.edges.flatMap (fun deEn =>
    st.edges.filterMap (fun enFa =>
      if deEn.2 == enFa.1 && (st.langOf deEn.1 == some "de")
          && (st.langOf deEn.2 == some "en")
          && (st.langOf enFa.2 == some "fa")
      then some (deEn.1, enFa.2) else none))

/-- `create_direct_links(conn, cursor)` (fault-free): one set-oriented
`INSERT IGNORE ... SELECT` deriving direct DE→FA edges via the EN bridge. -/
def create_direct_links (st : Store) : Store :=
  { st with edges := (derivedEdges st).foldl insertIgnore st.edges }

/-- The `word` payload of one translation reference: a string, a list of
strings, or some other JSON value. -/
inductive WordPayload where
  | str (s : String)
  | list (l : List String)
  | other
  deriving Repr, DecidableEq

/-- One element of a record's `translations` array. -/
structure TransEntry where
  code : String
  word : Option WordPayload
  deriving Repr, DecidableEq

/-- The fields of one parsed JSONL record the importer reads. -/
structure Record where
  lang_code : Option String
  word : Option String
  translations : List TransEntry
  deriving Repr, DecidableEq

/-- One input line: a parsed JSON record or a JSON parse error. -/
inductive Line where
  | json (r : Record)
  | parseError
  deriving Repr, DecidableEq

/-- Normalisation of the `word` payload of a translation entry into the
`target_words_text_list_processed` list: a string is stripped and kept if
non-empty; a list keeps its stripped non-empty members; anything else
yields nothing. -/
def processPayload : Option WordPayload → List String
  | some (.str s) => if strTrim s == "" then [] else [strTrim s]
  | some (.list l) => (l.map strTrim).filter (fun s => !(s == ""))
  | some .other => []
  | none => []

/-- The state the main loop threads through the pipeline stages besides the
resolver state: the pending `translation_batch` and the `stats` counters. -/
structure LoopState (σ : Type) where
  s : σ
  batch : List (Nat × Nat)
  stats : Stats

/-- An abstract word resolver and store writer: `resolve` is what a
`get_word_id` call does to the resolver state, `write` is what a batch
flush writes to the store.  Instantiated below for dry-run mode, for a
fault-free live database, and for a scripted cursor oracle. -/
structure Resolver (σ : Type) where
  resolve : σ → String → String → Option Nat × σ
  write : σ → List (Nat × Nat) → σ

/-- A fault-free flush: `process_batch` on the counters and batch plus the
resolver's store write (dry-run writes nothing). -/
def flushBatch {σ : Type} (R : Resolver σ) (ls : LoopState σ) : LoopState σ :=
  if ls.batch.isEmpty then ls
  else
    { s := R.write ls.s ls.batch,
      batch := (process_batch ls.batch false true ls.stats).2,
      stats := (process_batch ls.batch false true ls.stats).1 }

/-- The end-of-iteration capacity check
`if len(translation_batch) >= TRANSLATION_BATCH_SIZE: process_batch(...)`. -/
def maybeFlush {σ : Type} (R : Resolver σ) (N : Nat) (ls : LoopState σ) :
    LoopState σ :=
  if N ≤ ls.batch.length then flushBatch R ls else ls

/-- The inner loop over one translation entry's normalised word list:
resolve each word and append an edge (built by `mk` from the resolved id)
when resolution succeeded; a failed resolution adds nothing. -/
def resolveTargets {σ : Type} (R : Resolver σ) (lang : String)
    (mk : Nat → Nat × Nat) (words : List String)
    (acc : σ × List (Nat × Nat)) : σ × List (Nat × Nat) :=
  words.foldl (fun acc w =>
    match R.resolve acc.1 w lang with
    | (some wid, s') => (s', acc.2 ++ [mk wid])
    | (none, s') => (s', acc.2)) acc

/-- The loop over all translation entries of one bridge language. -/
def processTransEntries {σ : Type} (R : Resolver σ) (lang : String)
    (mk : Nat → Nat × Nat) (entries : List TransEntry)
    (acc : σ × List (Nat × Nat)) : σ × List (Nat × Nat) :=
  entries.foldl (fun acc e =>
    resolveTargets R lang mk (processPayload e.word) acc) acc

/-- The body of the main `for line in f` loop for one line, faithful to the
source's order: count the line; skip parse errors and non-English records;
count and skip a missing/empty headword; resolve the English word (on
failure count an error and skip the record); extract and resolve German
then Persian translations, batching de→en and en→fa edges; update the
de/fa/both counters; finally flush if the batch reached capacity. -/
def processLine {σ : Type} (R : Resolver σ) (N : Nat) (ls : LoopState σ)
    (line : Line) : LoopState σ :=
  let stats0 :=
    { ls.stats with processed_lines := ls.stats.processed_lines + 1 }
  match line with
  | .parseError => { ls with stats := { stats0 with errors := stats0.errors + 1 } }
  | .json r =>
    if r.lang_code ≠ some "en" then { ls with stats := stats0 }
    else match r.word with
      | none => { ls with stats := { stats0 with errors := stats0.errors + 1 } }
      | some w =>
        if w == "" then
          { ls with stats := { stats0 with errors := stats0.errors + 1 } }
        else
          let stats1 :=
            { stats0 with english_entries := stats0.english_entries + 1 }
          match R.resolve ls.s w "en" with
          | (none, s') =>
            { s := s', batch := ls.batch,
              stats := { stats1 with errors := stats1.errors + 1 } }
          | (some enId, s') =>
            let deTrans := r.translations.filter (fun t => t.code == "de")
            let faTrans := r.translations.filter (fun t => t.code == "fa")
            let stats2 :=
              if !deTrans.isEmpty then
                { stats1 with de_trans := stats1.de_trans + 1 }
              else stats1
            let acc2 := processTransEntries R "de" (fun d => (d, enId))
              deTrans (s', ls.batch)
            let stats3 :=
              if !faTrans.isEmpty then
                { stats2 with fa_trans := stats2.fa_trans + 1 }
              else stats2
            let acc3 := processTransEntries R "fa" (fun f => (enId, f))
              faTrans acc2
            let stats4 :=
              if !deTrans.isEmpty && !faTrans.isEmpty then
                { stats3 with both_trans := stats3.both_trans + 1 }
              else stats3
            maybeFlush R N ⟨acc3.1, acc3.2, stats4⟩

/-- Counter update of a line whose English headword failed to resolve:
the line and the English entry are counted, one error is recorded, and
nothing else changes. -/
def skipStats (st : Stats) : Stats :=
  { st with processed_lines := st.processed_lines + 1,
            english_entries := st.english_entries + 1,
            errors := st.errors + 1 }

/-- The main loop over all input lines. -/
def runLines {σ : Type} (R : Resolver σ) (N : Nat) (ls : LoopState σ)
    (lines : List Line) : LoopState σ :=
  lines.foldl (processLine R N) ls

/-- The whole ingestion: the line loop followed by the unconditional
end-of-input flush `if translation_batch: process_batch(...)`. -/
def runImport {σ : Type} (R : Resolver σ) (N : Nat) (ls : LoopState σ)
    (lines : List Line) : LoopState σ :=
  let ls' := runLines R N ls lines
  if ls'.batch.isEmpty then ls' else flushBatch R ls'

/-- Dry-run resolver over (cache, store): `get_word_id` takes its dry-run
branch before any cursor access, so the store component is carried through
untouched and a flush writes nothing. -/
def dryResolver : Resolver (Cache × Store) :=
  { resolve := fun s w l =>
      let r := getWordId s.1 w l true dummyDb
      (r.id, (r.cache, s.2)),
    write := fun s _ => s }

/-- One live, fault-free `get_word_id` call: the cursor behaviour is read
off the store (SELECT finds exactly the stored row; INSERT succeeds with
the next auto-increment id), and the store gains the row exactly when the
INSERT path runs (cache miss and SELECT empty). -/
def liveResolve (s : Cache × Store) (w l : String) :
    Option Nat × (Cache × Store) :=
  let t := strLower w
  let db : DbBehavior := ⟨.ok (s.2.findWord t l), .ok s.2.nextId, .ok none⟩
  let r := getWordId s.1 w l false db
  let st' :=
    if (Cache.find s.1 (t, l)).isSome || (s.2.findWord t l).isSome then s.2
    else { s.2 with words := s.2.words ++ [(s.2.nextId, t, l)],
                    nextId := s.2.nextId + 1 }
  (r.id, (r.cache, st'))

/-- Live fault-free resolver: `liveResolve` plus the batch `INSERT IGNORE`
into the translations table on flush. -/
def liveResolver : Resolver (Cache × Store) :=
  { resolve := liveResolve,
    write := fun s batch => (s.1, s.2.addEdges batch) }

/-- Exit status of `main` as a function of the setup conditions: 1 when the
error-summary file cannot be opened, 1 when the database connection fails
and the run is not a dry run; otherwise `main` returns normally (exit 0).
A missing input file raises `FileNotFoundError`, which the
`except FileNotFoundError: pass` handler swallows after counting it as an
error, so it does not affect the exit status. -/
def mainExitCode (errorLogOk dryRun dbReachable fileExists : Bool) : Nat :=
  if !errorLogOk then 1
  else if !dryRun && !dbReachable then 1
  else 0

/-- The cache key `(word.lower(), lang)` of one resolution request. -/
def reqKey (wl : String × String) : Key := (strLower wl.1, wl.2)

/-- One dry-run `get_word_id` call: the returned id and the new cache
(dry-run calls always succeed, so the default in `getD` is never used). -/
def dryStep (c : Cache) (wl : String × String) : Nat × Cache :=
  let r := getWordId c wl.1 wl.2 true dummyDb
  (r.id.getD 0, r.cache)

/-- The ids handed out by a sequence of dry-run resolutions. -/
def dryRunIds : Cache → List (String × String) → List Nat
  | _, [] => []
  | c, wl :: ws => (dryStep c wl).1 :: dryRunIds (dryStep c wl).2 ws

/-- The cache left behind by a sequence of dry-run resolutions. -/
def dryRunCache : Cache → List (String × String) → Cache
  | c, [] => c
  | c, wl :: ws => dryRunCache (dryStep c wl).2 ws

/-! ### Basic cache lemmas -/

lemma find_insert_self (c : Cache) (k : Key) (v : Nat) :
    Cache.find (Cache.insert c k v) k = some v := by
  simp [Cache.find, Cache.insert, List.find?]

/-- Every branch of `get_word_id` either returns an id that the resulting
cache binds the key to, or returns `none` with the cache untouched. -/
lemma getWordId_spec (c : Cache) (w l : String) (d : Bool)
    (db : DbBehavior) :
    (∃ i, (getWordId c w l d db).id = some i ∧
      Cache.find (getWordId c w l d db).cache (strLower w, l) = some i) ∨
    ((getWordId c w l d db).id = none ∧ (getWordId c w l d db).cache = c) := by
  simp only [getWordId]
  repeat' split
  all_goals
    first
    | exact Or.inr ⟨rfl, rfl⟩
    | (refine Or.inl ⟨_, rfl, ?_⟩
       first
       | assumption
       | exact find_insert_self ..)

/-- Every branch of `get_word_id` either returns an id or returns `none`
with the cache untouched. -/
lemma getWordId_cases (c : Cache) (w l : String) (d : Bool)
    (db : DbBehavior) :
    (∃ i, (getWordId c w l d db).id = some i) ∨
    ((getWordId c w l d db).id = none ∧ (getWordId c w l d db).cache = c) := by
  rcases getWordId_spec c w l d db with ⟨i, hi, _⟩ | h
  · exact Or.inl ⟨i, hi⟩
  · exact Or.inr h

/-- A successful call leaves the key bound to the returned id. -/
lemma getWordId_success_find (c : Cache) (w l : String) (d : Bool)
    (db : DbBehavior) (i : Nat)
    (h : (getWordId c w l d db).id = some i) :
    Cache.find (getWordId c w l d db).cache (strLower w, l) = some i := by
  rcases getWordId_spec c w l d db with ⟨j, hj, hf⟩ | ⟨hn, _⟩
  · rw [h] at hj
    injection hj with hj
    rwa [hj]
  · rw [h] at hn; cases hn

/-- A call whose key is cached returns the cached id, leaves the cache
unchanged and issues no cursor round trip. -/
lemma getWordId_hit (c : Cache) (w l : String) (d : Bool) (db : DbBehavior)
    (i : Nat) (h : Cache.find c (strLower w, l) = some i) :
    getWordId c w l d db = ⟨some i, c, 0⟩ := by
  unfold getWordId
  simp [h]

/-! ### C1 — normalization in `get_word_id` -/

/-- C1, counterexample: `get_word_id` does not trim.  In dry-run mode from
an empty cache, resolving `"Apple"` yields id 1 but then resolving
`" apple "` misses the cache (its key keeps the surrounding whitespace)
and yields the distinct id 2, contradicting the claim that the two texts
resolve to the same identity. -/
theorem c1_counterexample :
    (getWordId [] "Apple" "en" true dummyDb).id = some 1 ∧
    (getWordId (getWordId [] "Apple" "en" true dummyDb).cache " apple "
        "en" true dummyDb).id = some 2 ∧
    (getWordId [] "Apple" "en" true dummyDb).id ≠
      (getWordId (getWordId [] "Apple" "en" true dummyDb).cache " apple "
        "en" true dummyDb).id := by
  decide

/-- C1, amended: `get_word_id` normalizes case only (it lower-cases the
text but does not trim), so two texts that agree up to letter case — such
as "Apple" and "apple" — resolve to the same identity for every language
code: once the first call succeeds with some id, resolving the other
casing returns the same id. -/
theorem c1_case_normalization (c : Cache) (w1 w2 l : String) (d d' : Bool)
    (db db' : DbBehavior) (i : Nat) (hw : strLower w1 = strLower w2)
    (h : (getWordId c w1 l d db).id = some i) :
    (getWordId (getWordId c w1 l d db).cache w2 l d' db').id = some i := by
  have hf := getWordId_success_find c w1 l d db i h
  rw [hw] at hf
  rw [getWordId_hit _ _ _ _ _ _ hf]

/-- C1, witness for the amended theorem at "Apple" / "apple". -/
theorem c1_case_normalization_witness :
    (getWordId (getWordId [] "Apple" "en" true dummyDb).cache "apple" "en"
        true dummyDb).id = some 1 :=
  c1_case_normalization [] "Apple" "apple" "en" true true dummyDb dummyDb 1
    (by decide) (by decide)

/-! ### C3 — resolver idempotence via cache hit -/

/-- C3: once `get_word_id` has returned an id for (text, language), a
second call in the same run with the same pair returns the same id from
the cache, leaves the cache unchanged, and issues zero store queries. -/
theorem c3_resolve_idempotent (c : Cache) (w l : String) (d d' : Bool)
    (db db' : DbBehavior) (i : Nat)
    (h : (getWordId c w l d db).id = some i) :
    getWordId (getWordId c w l d db).cache w l d' db' =
      ⟨some i, (getWordId c w l d db).cache, 0⟩ :=
  getWordId_hit _ _ _ _ _ _ (getWordId_success_find c w l d db i h)

/-- C3, witness: a live first call that inserts (id 5 from the store),
then a second call that hits the cache with zero round trips. -/
theorem c3_resolve_idempotent_witness :
    getWordId (getWordId [] "Haus" "de" false ⟨.ok none, .ok 5, .ok none⟩).cache
        "Haus" "de" false dummyDb =
      ⟨some 5, (getWordId [] "Haus" "de" false ⟨.ok none, .ok 5, .ok none⟩).cache, 0⟩ :=
  c3_resolve_idempotent [] "Haus" "de" false false ⟨.ok none, .ok 5, .ok none⟩
    dummyDb 5 (by decide)

/-! ### C2 — duplicate-entry recovery and caller skip -/

/-- C2: on a cache miss, when the INSERT fails with duplicate-entry error
1062, `get_word_id` re-selects: if the re-select finds the row it caches
and returns its id (three round trips); if the re-select finds nothing it
returns `none` with the cache untouched.  And in the main loop, a line
whose English headword resolution returns `none` only increments the
line/entry/error counters and the run continues with the remaining
lines. -/
theorem c2_dup_recovery :
    (∀ (cache : Cache) (w l : String) (db : DbBehavior) (i : Nat),
        Cache.find cache (strLower w, l) = none →
        db.selectRes = .ok none → db.insertRes = .dupErr →
        (db.reselectRes = .ok (some i) →
          getWordId cache w l false db =
            ⟨some i, Cache.insert cache (strLower w, l) i, 3⟩) ∧
        (db.reselectRes = .ok none →
          (getWordId cache w l false db).id = none ∧
          (getWordId cache w l false db).cache = cache)) ∧
    (∀ {σ : Type} (R : Resolver σ) (N : Nat) (ls : LoopState σ) (r : Record)
        (w : String) (s' : σ) (rest : List Line),
        r.lang_code = some "en" → r.word = some w → (w == "") = false →
        R.resolve ls.s w "en" = (none, s') →
        runLines R N ls (Line.json r :: rest) =
          runLines R N ⟨s', ls.batch, skipStats ls.stats⟩ rest) := by
  constructor
  · intro cache w l db i hmiss hsel hins
    constructor
    · intro hre
      simp [getWordId, hmiss, hsel, hins, hre]
    · intro hre
      simp [getWordId, hmiss, hsel, hins, hre]
  · intro σ R N ls r w s' rest hlang hword hempty hres
    show runLines R N (processLine R N ls (Line.json r)) rest = _
    congr 1
    simp only [processLine, hlang, hword, hempty, hres, skipStats]
    simp

/-- C2, witness: a concrete duplicate-entry recovery (re-select returns
id 9) and a concrete skipped line followed by a parse-error line, using a
resolver whose store always fails. -/
theorem c2_dup_recovery_witness :
    getWordId [] "haus" "de" false ⟨.ok none, .dupErr, .ok (some 9)⟩ =
      ⟨some 9, [(("haus", "de"), 9)], 3⟩ ∧
    runLines ⟨fun s _ _ => (none, s), fun s _ => s⟩ 1000
        ⟨(), [], initStats⟩
        [Line.json ⟨some "en", some "x", []⟩, Line.parseError] =
      runLines ⟨fun s _ _ => (none, s), fun s _ => s⟩ 1000
        ⟨(), [], skipStats initStats⟩ [Line.parseError] :=
  ⟨(c2_dup_recovery.1 [] "haus" "de" ⟨.ok none, .dupErr, .ok (some 9)⟩ 9
      (by decide) rfl rfl).1 rfl,
   c2_dup_recovery.2 ⟨fun s _ _ => (none, s), fun s _ => s⟩ 1000
      ⟨(), [], initStats⟩ ⟨some "en", some "x", []⟩ "x" () [Line.parseError]
      rfl rfl (by decide) rfl⟩

/-! ### C9 — failure paths leave the cache untouched -/

/-- C9: on every failure path `get_word_id` returns `none` and leaves the
cache exactly as it was, and the cache is mutated only by calls that
return an identity. -/
theorem c9_failure_preserves_cache (c : Cache) (w l : String) (d : Bool)
    (db : DbBehavior) :
    ((getWordId c w l d db).id = none → (getWordId c w l d db).cache = c) ∧
    ((getWordId c w l d db).cache ≠ c → ∃ i, (getWordId c w l d db).id = some i) := by
  constructor
  · intro hnone
    rcases getWordId_cases c w l d db with ⟨i, hi⟩ | ⟨_, hc⟩
    · rw [hnone] at hi; cases hi
    · exact hc
  · intro hne
    rcases getWordId_cases c w l d db with ⟨i, hi⟩ | ⟨_, hc⟩
    · exact ⟨i, hi⟩
    · exact absurd hc hne

/-- C9, witness: a select exception leaves the empty cache empty, and a
non-duplicate integrity error likewise returns `none`. -/
theorem c9_failure_preserves_cache_witness :
    (getWordId [] "a" "en" false ⟨.err, .err, .err⟩).cache = [] ∧
    (getWordId [] "b" "en" false ⟨.ok none, .integrityErr, .err⟩).cache = [] :=
  ⟨(c9_failure_preserves_cache [] "a" "en" false ⟨.err, .err, .err⟩).1 (by decide),
   (c9_failure_preserves_cache [] "b" "en" false ⟨.ok none, .integrityErr, .err⟩).1 (by decide)⟩

/-! ### C4 — the batch is always cleared -/

/-- C4: after `process_batch` on a non-empty batch the pending batch list
is empty, for every combination of dry-run mode and insert success or
store fault — failed batches are dropped, never requeued. -/
theorem c4_batch_always_cleared (batch : List (Nat × Nat)) (d ok : Bool)
    (stats : Stats) (h : batch ≠ []) :
    (process_batch batch d ok stats).2 = [] := by
  simp [process_batch, h]

/-- C4, witness: a failing live flush of a one-edge batch leaves an empty
pending list. -/
theorem c4_batch_always_cleared_witness :
    (process_batch [(1, 2)] false false initStats).2 = [] :=
  c4_batch_always_cleared [(1, 2)] false false initStats (by decide)

/-! ### C7 — exit status -/

/-- C7, counterexample: a live run (error log opens, store reachable)
whose input file is absent exits with status 0 — `main` swallows the
`FileNotFoundError` and returns normally — contradicting the claim of a
non-zero exit in that case. -/
theorem c7_counterexample : mainExitCode true false true false = 0 := rfl

/-- C7, amended: the program exits non-zero exactly when the error-summary
file cannot be opened or the store is unreachable while not in dry-run
mode; a missing input file does not affect the exit status (it is only
counted as a per-run error), so such runs — like runs with per-record
errors — exit zero. -/
theorem c7_exit_code (elog dry db file : Bool) :
    (mainExitCode elog dry db file ≠ 0 ↔
      elog = false ∨ (dry = false ∧ db = false)) ∧
    mainExitCode elog dry db file = mainExitCode elog dry db true := by
  cases elog <;> cases dry <;> cases dbv : db <;> cases file <;> decide

/-- C7, witness: a dry run with the store unreachable and the input file
present exits zero. -/
theorem c7_exit_code_witness : mainExitCode true true false true = 0 := by
  have h := (c7_exit_code true true false true).1
  by_cases hz : mainExitCode true true false true = 0
  · exact hz
  · rcases h.mp hz with h' | ⟨h', _⟩ <;> cases h'

/-! ### C5 — batch capacity invariant -/

lemma flushBatch_clears {σ : Type} (R : Resolver σ) (ls : LoopState σ) :
    (flushBatch R ls).batch = [] := by
  by_cases h : ls.batch.isEmpty
  · simp only [flushBatch, h, if_pos]
    exact List.isEmpty_iff.mp h
  · simp only [flushBatch, h]
    simp [process_batch, List.isEmpty_iff.not.mp h]

lemma maybeFlush_length_lt {σ : Type} (R : Resolver σ) (N : Nat)
    (ls : LoopState σ) (hN : 0 < N) :
    (maybeFlush R N ls).batch.length < N := by
  by_cases h : N ≤ ls.batch.length
  · simp [maybeFlush, h, flushBatch_clears, hN]
  · rw [maybeFlush, if_neg h]
    omega

lemma processLine_length_lt {σ : Type} (R : Resolver σ) (N : Nat)
    (ls : LoopState σ) (line : Line) (hN : 0 < N)
    (hlen : ls.batch.length < N) :
    (processLine R N ls line).batch.length < N := by
  cases line with
  | parseError => simpa [processLine] using hlen
  | json r =>
    simp only [processLine]
    split
    · simpa using hlen
    · split
      · simpa using hlen
      · split
        · simpa using hlen
        · split
          · simpa using hlen
          · exact maybeFlush_length_lt R N _ hN

/-- C5: with a positive capacity `N` (the source sets
`TRANSLATION_BATCH_SIZE = 1000`), once the pending batch reaches `N`
edges the end-of-iteration check flushes it to empty, and consequently —
starting from a batch below capacity — the batch holds fewer than `N`
edges at the point any new input record begins processing (i.e. after any
number of processed lines). -/
theorem c5_batch_capacity {σ : Type} (R : Resolver σ) (N : Nat)
    (ls : LoopState σ) (lines : List Line) (hN : 0 < N)
    (hlen : ls.batch.length < N) :
    TRANSLATION_BATCH_SIZE = 1000 ∧
    (∀ ls' : LoopState σ, N ≤ ls'.batch.length →
      (maybeFlush R N ls').batch = []) ∧
    (runLines R N ls lines).batch.length < N := by
  refine ⟨rfl, fun ls' h => ?_, ?_⟩
  · simp [maybeFlush, h, flushBatch_clears]
  · induction lines generalizing ls with
    | nil => simpa [runLines] using hlen
    | cons a t ih =>
      show (runLines R N (processLine R N ls a) t).batch.length < N
      exact ih _ (processLine_length_lt R N ls a hN hlen)

/-- C5, witness: capacity 2, one English record whose three German
translations push the batch to 3 ≥ 2, so the end-of-record flush leaves
it empty and below capacity. -/
theorem c5_batch_capacity_witness :
    TRANSLATION_BATCH_SIZE = 1000 ∧
    (∀ ls' : LoopState (Cache × Store), 2 ≤ ls'.batch.length →
      (maybeFlush dryResolver 2 ls').batch = []) ∧
    (runLines dryResolver 2 ⟨([], ⟨[], 1, []⟩), [], initStats⟩
      [Line.json ⟨some "en", some "x",
        [⟨"de", some (.list ["a", "b", "c"])⟩]⟩]).batch.length < 2 :=
  c5_batch_capacity dryResolver 2 ⟨([], ⟨[], 1, []⟩), [], initStats⟩
    [Line.json ⟨some "en", some "x", [⟨"de", some (.list ["a", "b", "c"])⟩]⟩]
    (by decide) (by decide)

/-! ### C6 — bridge closure -/

lemma mem_insertIgnore (es : List (Nat × Nat)) (a e : Nat × Nat) :
    e ∈ insertIgnore es a ↔ e ∈ es ∨ e = a := by
  by_cases h : a ∈ es
  · simp only [insertIgnore, if_pos h]
    exact ⟨Or.inl, fun h' => h'.elim id (fun he => he ▸ h)⟩
  · simp [insertIgnore, if_neg h]

lemma mem_foldl_insertIgnore (l es : List (Nat × Nat)) (e : Nat × Nat) :
    e ∈ l.foldl insertIgnore es ↔ e ∈ es ∨ e ∈ l := by
  induction l generalizing es with
  | nil => simp
  | cons a t ih =>
    rw [List.foldl_cons, ih, mem_insertIgnore]
    simp only [List.mem_cons]
    tauto

lemma foldl_insertIgnore_of_subset (l es : List (Nat × Nat))
    (h : ∀ e ∈ l, e ∈ es) : l.foldl insertIgnore es = es := by
  induction l generalizing es with
  | nil => rfl
  | cons a t ih =>
    rw [List.foldl_cons, show insertIgnore es a = es from
      if_pos (h a (List.mem_cons_self a t))]
    exact ih es (fun e he => h e (List.mem_cons_of_mem a he))

lemma nodup_insertIgnore (es : List (Nat × Nat)) (a : Nat × Nat)
    (h : es.Nodup) : (insertIgnore es a).Nodup := by
  by_cases ha : a ∈ es
  · rwa [insertIgnore, if_pos ha]
  · rw [insertIgnore, if_neg ha]
    simp [List.nodup_append, h, ha]

lemma nodup_foldl_insertIgnore (l es : List (Nat × Nat)) (h : es.Nodup) :
    (l.foldl insertIgnore es).Nodup := by
  induction l generalizing es with
  | nil => exact h
  | cons a t ih => exact ih _ (nodup_insertIgnore es a h)

/-- Membership in the join produced by the `SELECT` of
`create_direct_links`: a pair (A, C) is selected exactly when some
intermediate B gives edges A→B and B→C with A German, B English and C
Persian. -/
lemma mem_derivedEdges (st : Store) (p : Nat × Nat) :
    p ∈ derivedEdges st ↔
      ∃ b, (p.1, b) ∈ st.edges ∧ (b, p.2) ∈ st.edges ∧
        st.langOf p.1 = some "de" ∧ st.langOf b = some "en" ∧
        st.langOf p.2 = some "fa" := by
  constructor
  · intro hp
    simp only [derivedEdges, List.mem_flatMap, List.mem_filterMap] at hp
    obtain ⟨deEn, hde, enFa, hfa, hif⟩ := hp
    by_cases hc : (deEn.2 == enFa.1 && (st.langOf deEn.1 == some "de")
        && (st.langOf deEn.2 == some "en")
        && (st.langOf enFa.2 == some "fa")) = true
    · rw [if_pos hc] at hif
      injection hif with hif
      subst hif
      simp only [Bool.and_eq_true, beq_iff_eq] at hc
      obtain ⟨⟨⟨h1, h2⟩, h3⟩, h4⟩ := hc
      exact ⟨deEn.2, hde, by rwa [h1], h2, h3, h4⟩
    · rw [if_neg hc] at hif
      cases hif
  · rintro ⟨b, h1, h2, hde, hen, hfa⟩
    simp only [derivedEdges, List.mem_flatMap, List.mem_filterMap]
    refine ⟨(p.1, b), h1, (b, p.2), h2, ?_⟩
    simp [hde, hen, hfa]

lemma derivedEdges_subset_closure (st : Store) (p : Nat × Nat)
    (hp : p ∈ derivedEdges st) : p ∈ (create_direct_links st).edges :=
  (mem_foldl_insertIgnore _ _ _).mpr (Or.inr hp)

/-- The second run of the closure derives nothing new: a derived edge of
the closed store is already derivable in the original store, because the
edges the closure added connect a German word directly to a Persian word
and hence cannot serve as a German→English or English→Persian leg. -/
lemma derivedEdges_closure_subset (st : Store) (p : Nat × Nat)
    (hp : p ∈ derivedEdges (create_direct_links st)) :
    p ∈ derivedEdges st := by
  rw [mem_derivedEdges] at hp ⊢
  obtain ⟨b, h1, h2, hde, hen, hfa⟩ := hp
  have hde' : st.langOf p.1 = some "de" := hde
  have hen' : st.langOf b = some "en" := hen
  have hfa' : st.langOf p.2 = some "fa" := hfa
  have h1' : (p.1, b) ∈ st.edges := by
    rcases (mem_foldl_insertIgnore _ _ _).mp h1 with h | h
    · exact h
    · obtain ⟨_, _, _, _, _, hb⟩ := (mem_derivedEdges st _).mp h
      rw [hen'] at hb
      exact absurd hb (by decide)
  have h2' : (b, p.2) ∈ st.edges := by
    rcases (mem_foldl_insertIgnore _ _ _).mp h2 with h | h
    · exact h
    · obtain ⟨_, _, _, hb, _, _⟩ := (mem_derivedEdges st _).mp h
      rw [hen'] at hb
      exact absurd hb (by decide)
  exact ⟨b, h1', h2', hde', hen', hfa'⟩

lemma closure_idem (st : Store) :
    create_direct_links (create_direct_links st) = create_direct_links st := by
  have he : (derivedEdges (create_direct_links st)).foldl insertIgnore
      (create_direct_links st).edges = (create_direct_links st).edges :=
    foldl_insertIgnore_of_subset _ _ (fun e he =>
      derivedEdges_subset_closure st e (derivedEdges_closure_subset st e he))
  show ({ create_direct_links st with
    edges := (derivedEdges (create_direct_links st)).foldl insertIgnore
      (create_direct_links st).edges } : Store) = create_direct_links st
  rw [he]

/-- C6: for committed edges A→B and B→C with A German, B English and C
Persian, running `create_direct_links` inserts the edge A→C; running it a
second time changes nothing (so no duplicate is created and no error is
possible), and the edge table stays duplicate-free. -/
theorem c6_bridge_closure (st : Store) (a b c : Nat)
    (hab : (a, b) ∈ st.edges) (hbc : (b, c) ∈ st.edges)
    (ha : st.langOf a = some "de") (hb : st.langOf b = some "en")
    (hc : st.langOf c = some "fa") :
    (a, c) ∈ (create_direct_links st).edges ∧
    create_direct_links (create_direct_links st) = create_direct_links st ∧
    (st.edges.Nodup → (create_direct_links st).edges.Nodup) := by
  refine ⟨?_, closure_idem st, fun h => nodup_foldl_insertIgnore _ _ h⟩
  exact derivedEdges_subset_closure st (a, c)
    ((mem_derivedEdges st (a, c)).mpr ⟨b, hab, hbc, ha, hb, hc⟩)

/-- C6, witness: the Haus/house/خانه scenario store. -/
theorem c6_bridge_closure_witness :
    (1, 3) ∈ (create_direct_links
      ⟨[(1, "house", "de"), (2, "haus", "en"), (3, "خانه", "fa")], 4,
        [(1, 2), (2, 3)]⟩).edges ∧
    create_direct_links (create_direct_links
      ⟨[(1, "house", "de"), (2, "haus", "en"), (3, "خانه", "fa")], 4,
        [(1, 2), (2, 3)]⟩) =
      create_direct_links
        ⟨[(1, "house", "de"), (2, "haus", "en"), (3, "خانه", "fa")], 4,
          [(1, 2), (2, 3)]⟩ ∧
    (([(1, 2), (2, 3)] : List (Nat × Nat)).Nodup →
      (create_direct_links
        ⟨[(1, "house", "de"), (2, "haus", "en"), (3, "خانه", "fa")], 4,
          [(1, 2), (2, 3)]⟩).edges.Nodup) :=
  c6_bridge_closure
    ⟨[(1, "house", "de"), (2, "haus", "en"), (3, "خانه", "fa")], 4,
      [(1, 2), (2, 3)]⟩ 1 2 3 (by decide) (by decide) (by decide) (by decide)
    (by decide)

/-! ### C10 — dry-run identities -/

lemma dryStep_hit (c : Cache) (wl : String × String) (v : Nat)
    (h : Cache.find c (reqKey wl) = some v) : dryStep c wl = (v, c) := by
  rw [dryStep, getWordId_hit c wl.1 wl.2 true dummyDb v h]
  rfl

lemma dryStep_miss (c : Cache) (wl : String × String)
    (h : Cache.find c (reqKey wl) = none) :
    dryStep c wl =
      (c.length + 1, Cache.insert c (reqKey wl) (c.length + 1)) := by
  rw [dryStep]
  simp only [getWordId]
  rw [show ((strLower wl.1, wl.2) : Key) = reqKey wl from rfl, h]
  rfl

lemma find_insert_ne (c : Cache) (k k' : Key) (v : Nat)
    (hne : (k' == k) = false) :
    Cache.find (Cache.insert c k' v) k = Cache.find c k := by
  simp only [Cache.find, Cache.insert, List.find?, hne]

lemma not_mem_of_find_none (c : Cache) (k : Key)
    (h : Cache.find c k = none) : k ∉ c.map Prod.fst := by
  intro hm
  obtain ⟨p, hp, hpk⟩ := List.mem_map.mp hm
  have hfn : List.find? (fun p => p.1 == k) c = none :=
    Option.map_eq_none'.mp h
  have hnp := List.find?_eq_none.mp hfn p hp
  rw [hpk] at hnp
  exact hnp (beq_self_eq_true k)

lemma find_some_mem (c : Cache) (k : Key) (v : Nat)
    (h : Cache.find c k = some v) : (k, v) ∈ c := by
  obtain ⟨p, hp, hv⟩ := Option.map_eq_some'.mp h
  have hmem := List.mem_of_find?_eq_some hp
  have hk := List.find?_some hp
  rw [beq_iff_eq] at hk
  cases p
  cases hk
  cases hv
  exact hmem

lemma dryStep_preserves_find (c : Cache) (wl : String × String) (k : Key)
    (v : Nat) (h : Cache.find c k = some v) :
    Cache.find (dryStep c wl).2 k = some v := by
  rcases hf : Cache.find c (reqKey wl) with _ | w
  · have hne : (reqKey wl == k) = false := by
      rw [beq_eq_false_iff_ne]
      intro hb
      rw [hb, h] at hf
      cases hf
    rw [dryStep_miss c wl hf, find_insert_ne c k (reqKey wl) _ hne]
    exact h
  · rw [dryStep_hit c wl w hf]
    exact h

lemma dryStep_find_self (c : Cache) (wl : String × String) :
    Cache.find (dryStep c wl).2 (reqKey wl) = some (dryStep c wl).1 := by
  rcases hf : Cache.find c (reqKey wl) with _ | w
  · rw [dryStep_miss c wl hf]
    exact find_insert_self ..
  · rw [dryStep_hit c wl w hf]
    exact hf

lemma dryRunCache_preserves_find (ws : List (String × String)) (c : Cache)
    (k : Key) (v : Nat) (h : Cache.find c k = some v) :
    Cache.find (dryRunCache c ws) k = some v := by
  induction ws generalizing c with
  | nil => exact h
  | cons wl t ih => exact ih _ (dryStep_preserves_find c wl k v h)

/-- The id a dry-run resolution hands out is the one the final cache of
the run records for its key: values are cached at first sight and never
overwritten. -/
lemma dryRunIds_eq_final (ws : List (String × String)) (c : Cache) :
    dryRunIds c ws = ws.map
      (fun wl => (Cache.find (dryRunCache c ws) (reqKey wl)).getD 0) := by
  induction ws generalizing c with
  | nil => rfl
  | cons wl t ih =>
    show (dryStep c wl).1 :: dryRunIds (dryStep c wl).2 t = _
    rw [List.map_cons]
    congr 1
    · rw [show dryRunCache c (wl :: t) = dryRunCache (dryStep c wl).2 t
        from rfl,
        dryRunCache_preserves_find t _ _ _ (dryStep_find_self c wl)]
      rfl
    · exact ih _

/-- The dry-run cache invariant: values are exactly the consecutive ids
`len, len-1, ..., 1` (newest first) and the keys are pairwise distinct. -/
lemma dryStep_inv (c : Cache) (wl : String × String)
    (hv : c.map Prod.snd = (List.range c.length).reverse.map (· + 1))
    (hk : (c.map Prod.fst).Nodup) :
    ((dryStep c wl).2.map Prod.snd =
      (List.range (dryStep c wl).2.length).reverse.map (· + 1)) ∧
    ((dryStep c wl).2.map Prod.fst).Nodup := by
  rcases hf : Cache.find c (reqKey wl) with _ | w
  · rw [dryStep_miss c wl hf]
    constructor
    · show ((reqKey wl, c.length + 1) :: c).map Prod.snd = _
      rw [List.map_cons, hv]
      show _ = (List.range (c.length + 1)).reverse.map (· + 1)
      rw [List.range_succ, List.reverse_append]
      rfl
    · have hnm := not_mem_of_find_none c (reqKey wl) hf
      show ((reqKey wl, c.length + 1) :: c).map Prod.fst |>.Nodup
      rw [List.map_cons, List.nodup_cons]
      exact ⟨hnm, hk⟩
  · rw [dryStep_hit c wl w hf]
    exact ⟨hv, hk⟩

lemma dryRunCache_inv (ws : List (String × String)) (c : Cache)
    (hv : c.map Prod.snd = (List.range c.length).reverse.map (· + 1))
    (hk : (c.map Prod.fst).Nodup) :
    ((dryRunCache c ws).map Prod.snd =
      (List.range (dryRunCache c ws).length).reverse.map (· + 1)) ∧
    ((dryRunCache c ws).map Prod.fst).Nodup := by
  induction ws generalizing c with
  | nil => exact ⟨hv, hk⟩
  | cons wl t ih =>
    obtain ⟨hv', hk'⟩ := dryStep_inv c wl hv hk
    exact ih _ hv' hk'

lemma values_nodup_of_inv (c : Cache)
    (hv : c.map Prod.snd = (List.range c.length).reverse.map (· + 1)) :
    (c.map Prod.snd).Nodup := by
  rw [hv]
  exact (List.nodup_reverse.mpr (List.nodup_range _)).map
    (fun a b h => by omega)

/-- Every key resolved during a dry run is bound in the final cache. -/
lemma dryRunCache_find_isSome (ws : List (String × String)) (c : Cache)
    (wl : String × String) (h : wl ∈ ws) :
    ∃ v, Cache.find (dryRunCache c ws) (reqKey wl) = some v := by
  induction ws generalizing c with
  | nil => cases h
  | cons a t ih =>
    rcases List.mem_cons.mp h with rfl | h'
    · exact ⟨(dryStep c wl).1, dryRunCache_preserves_find t _ _ _
        (dryStep_find_self c wl)⟩
    · exact ih _ h'

lemma keys_inj_of_values_nodup (c : Cache)
    (hnd : (c.map Prod.snd).Nodup) (k1 k2 : Key) (v : Nat)
    (h1 : (k1, v) ∈ c) (h2 : (k2, v) ∈ c) : k1 = k2 := by
  have := List.inj_on_of_nodup_map hnd h1 h2 rfl
  exact congrArg Prod.fst this

/-- C10: across a dry run from an empty cache, the cache values are the
consecutive synthetic ids `len(cache), ..., 2, 1` (so ids are numbered
consecutively from 1), and two resolutions receive the same id exactly
when their (lowercased text, language) keys coincide. -/
theorem c10_dry_run_ids (ws : List (String × String)) (i j : Nat)
    (wli wlj : String × String)
    (hi : ws.get? i = some wli) (hj : ws.get? j = some wlj) :
    ((dryRunCache [] ws).map Prod.snd =
      (List.range (dryRunCache [] ws).length).reverse.map (· + 1)) ∧
    (reqKey wli = reqKey wlj →
      (dryRunIds [] ws).get? i = (dryRunIds [] ws).get? j) ∧
    (reqKey wli ≠ reqKey wlj →
      (dryRunIds [] ws).get? i ≠ (dryRunIds [] ws).get? j) := by
  obtain ⟨hv, hk⟩ := dryRunCache_inv ws [] rfl List.nodup_nil
  have hids := dryRunIds_eq_final ws []
  have hgi : (dryRunIds [] ws).get? i =
      some ((Cache.find (dryRunCache [] ws) (reqKey wli)).getD 0) := by
    rw [hids, List.get?_map, hi]
    rfl
  have hgj : (dryRunIds [] ws).get? j =
      some ((Cache.find (dryRunCache [] ws) (reqKey wlj)).getD 0) := by
    rw [hids, List.get?_map, hj]
    rfl
  refine ⟨hv, fun heq => ?_, fun hne => ?_⟩
  · rw [hgi, hgj, heq]
  · rw [hgi, hgj]
    intro hsome
    injection hsome with hval
    -- both keys were resolved during the run, so both are bound in the
    -- final cache, to distinct values for distinct keys
    have hmi : wli ∈ ws := List.get?_mem hi
    have hmj : wlj ∈ ws := List.get?_mem hj
    obtain ⟨v1, hv1⟩ := dryRunCache_find_isSome ws [] wli hmi
    obtain ⟨v2, hv2⟩ := dryRunCache_find_isSome ws [] wlj hmj
    rw [hv1, hv2] at hval
    simp only [Option.getD_some] at hval
    subst hval
    exact hne (keys_inj_of_values_nodup _
      (values_nodup_of_inv _ hv) _ _ v1
      (find_some_mem _ _ _ hv1) (find_some_mem _ _ _ hv2))

/-- C10, witness: three dry-run requests; the first two share the key
("apple", "en") up to case and receive the same id, the third has a
distinct key and a distinct id. -/
theorem c10_dry_run_ids_witness :
    ((dryRunCache [] [("Apple", "en"), ("APPLE", "en"), ("Haus", "de")]).map
        Prod.snd =
      (List.range (dryRunCache []
        [("Apple", "en"), ("APPLE", "en"), ("Haus", "de")]).length).reverse.map
        (· + 1)) ∧
    (reqKey ("Apple", "en") = reqKey ("APPLE", "en") →
      (dryRunIds [] [("Apple", "en"), ("APPLE", "en"), ("Haus", "de")]).get? 0 =
      (dryRunIds [] [("Apple", "en"), ("APPLE", "en"), ("Haus", "de")]).get? 1) ∧
    (reqKey ("Apple", "en") ≠ reqKey ("APPLE", "en") →
      (dryRunIds [] [("Apple", "en"), ("APPLE", "en"), ("Haus", "de")]).get? 0 ≠
      (dryRunIds [] [("Apple", "en"), ("APPLE", "en"), ("Haus", "de")]).get? 1) :=
  c10_dry_run_ids [("Apple", "en"), ("APPLE", "en"), ("Haus", "de")] 0 1
    ("Apple", "en") ("APPLE", "en") rfl rfl

/-! ### C8 — dry-run / live-run equivalence

A dry run and a fault-free live run of the same input are related by a
simulation: the two caches always hold the same key sequence (their ids
differ — synthetic counter vs store ids — but hits and misses coincide),
the pending batches have the same length, and the counters are identical.
The dry run's store component is never touched. -/

lemma find_eq_none_iff (c : Cache) (k : Key) :
    Cache.find c k = none ↔ k ∉ c.map Prod.fst := by
  constructor
  · exact not_mem_of_find_none c k
  · intro h
    unfold Cache.find
    rw [Option.map_eq_none', List.find?_eq_none]
    intro p hp hb
    exact h (List.mem_map.mpr ⟨p, hp, beq_iff_eq.mp hb⟩)

lemma find_none_congr (cd cv : Cache) (k : Key)
    (h : cd.map Prod.fst = cv.map Prod.fst) :
    (Cache.find cd k = none ↔ Cache.find cv k = none) := by
  rw [find_eq_none_iff, find_eq_none_iff, h]

/-- One dry-run resolution: always succeeds, never touches the store, and
prepends the key to the cache exactly on a miss. -/
lemma dryResolve_spec (c : Cache) (st : Store) (w l : String) :
    (dryResolver.resolve (c, st) w l).1.isSome = true ∧
    (dryResolver.resolve (c, st) w l).2.2 = st ∧
    ((dryResolver.resolve (c, st) w l).2.1.map Prod.fst =
      if Cache.find c (strLower w, l) = none
      then (strLower w, l) :: c.map Prod.fst else c.map Prod.fst) := by
  rcases hf : Cache.find c (strLower w, l) with _ | v
  · simp [dryResolver, getWordId, hf, Cache.insert]
  · simp [dryResolver, getWordId_hit c w l true dummyDb v hf, hf]

/-- One fault-free live resolution: always succeeds and prepends the key
to the cache exactly on a miss. -/
lemma liveResolve_spec (c : Cache) (st : Store) (w l : String) :
    (liveResolver.resolve (c, st) w l).1.isSome = true ∧
    ((liveResolver.resolve (c, st) w l).2.1.map Prod.fst =
      if Cache.find c (strLower w, l) = none
      then (strLower w, l) :: c.map Prod.fst else c.map Prod.fst) := by
  rcases hf : Cache.find c (strLower w, l) with _ | v
  · rcases hw : st.findWord (strLower w) l with _ | wid
    · simp [liveResolver, liveResolve, getWordId, hf, hw, Cache.insert]
    · simp [liveResolver, liveResolve, getWordId, hf, hw, Cache.insert]
  · simp [liveResolver, liveResolve,
      getWordId_hit c w l false
        ⟨.ok (st.findWord (strLower w) l), .ok st.nextId, .ok none⟩ v hf, hf]

lemma resolveTargets_rel (lang : String) (mkd mkv : Nat → Nat × Nat)
    (words : List String) (cd cv : Cache) (std stv : Store)
    (bd bv : List (Nat × Nat))
    (hkeys : cd.map Prod.fst = cv.map Prod.fst)
    (hlen : bd.length = bv.length) :
    (resolveTargets dryResolver lang mkd words ((cd, std), bd)).1.1.map
        Prod.fst =
      (resolveTargets liveResolver lang mkv words ((cv, stv), bv)).1.1.map
        Prod.fst ∧
    (resolveTargets dryResolver lang mkd words ((cd, std), bd)).2.length =
      (resolveTargets liveResolver lang mkv words ((cv, stv), bv)).2.length ∧
    (resolveTargets dryResolver lang mkd words ((cd, std), bd)).1.2 = std := by
  induction words generalizing cd cv stv bd bv with
  | nil => exact ⟨hkeys, hlen, rfl⟩
  | cons w t ih =>
    obtain ⟨hd1, hd2, hd3⟩ := dryResolve_spec cd std w lang
    obtain ⟨hv1, hv2⟩ := liveResolve_spec cv stv w lang
    rcases hrd : dryResolver.resolve (cd, std) w lang with ⟨idd, ⟨cd1, std1⟩⟩
    rcases hrv : liveResolver.resolve (cv, stv) w lang with ⟨idv, ⟨cv1, stv1⟩⟩
    rw [hrd] at hd1 hd2 hd3
    rw [hrv] at hv1 hv2
    rcases idd with _ | a
    · cases hd1
    rcases idv with _ | b
    · cases hv1
    have hd2' : std1 = std := hd2
    rw [hd2'] at hrd
    have hkeys1 : cd1.map Prod.fst = cv1.map Prod.fst := by
      rw [hd3, hv2]
      by_cases hn : Cache.find cd (strLower w, lang) = none
      · rw [if_pos hn, if_pos ((find_none_congr cd cv _ hkeys).mp hn), hkeys]
      · rw [if_neg hn,
          if_neg (fun hh => hn ((find_none_congr cd cv _ hkeys).mpr hh)),
          hkeys]
    have hstep_d : resolveTargets dryResolver lang mkd (w :: t) ((cd, std), bd)
        = resolveTargets dryResolver lang mkd t ((cd1, std), bd ++ [mkd a]) := by
      simp only [resolveTargets, List.foldl_cons, hrd]
    have hstep_v : resolveTargets liveResolver lang mkv (w :: t) ((cv, stv), bv)
        = resolveTargets liveResolver lang mkv t
            ((cv1, stv1), bv ++ [mkv b]) := by
      simp only [resolveTargets, List.foldl_cons, hrv]
    rw [hstep_d, hstep_v]
    exact ih cd1 cv1 stv1 (bd ++ [mkd a]) (bv ++ [mkv b]) hkeys1
      (by simp [hlen])

lemma processTransEntries_rel (lang : String) (mkd mkv : Nat → Nat × Nat)
    (entries : List TransEntry) (cd cv : Cache) (std stv : Store)
    (bd bv : List (Nat × Nat))
    (hkeys : cd.map Prod.fst = cv.map Prod.fst)
    (hlen : bd.length = bv.length) :
    (processTransEntries dryResolver lang mkd entries ((cd, std), bd)).1.1.map
        Prod.fst =
      (processTransEntries liveResolver lang mkv entries
        ((cv, stv), bv)).1.1.map Prod.fst ∧
    (processTransEntries dryResolver lang mkd entries ((cd, std), bd)).2.length
      = (processTransEntries liveResolver lang mkv entries
          ((cv, stv), bv)).2.length ∧
    (processTransEntries dryResolver lang mkd entries
      ((cd, std), bd)).1.2 = std := by
  induction entries generalizing cd cv stv bd bv with
  | nil => exact ⟨hkeys, hlen, rfl⟩
  | cons e t ih =>
    obtain ⟨h1, h2, h3⟩ := resolveTargets_rel lang mkd mkv
      (processPayload e.word) cd cv std stv bd bv hkeys hlen
    rcases hrd : resolveTargets dryResolver lang mkd (processPayload e.word)
      ((cd, std), bd) with ⟨⟨cd1, std1⟩, bd1⟩
    rcases hrv : resolveTargets liveResolver lang mkv (processPayload e.word)
      ((cv, stv), bv) with ⟨⟨cv1, stv1⟩, bv1⟩
    rw [hrd] at h1 h2 h3
    rw [hrv] at h1 h2
    have h3' : std1 = std := h3
    rw [h3'] at hrd
    have hstep_d : processTransEntries dryResolver lang mkd (e :: t)
        ((cd, std), bd) = processTransEntries dryResolver lang mkd t
          ((cd1, std), bd1) := by
      simp only [processTransEntries, List.foldl_cons]
      rw [show resolveTargets dryResolver lang mkd (processPayload e.word)
        ((cd, std), bd) = ((cd1, std), bd1) from hrd]
    have hstep_v : processTransEntries liveResolver lang mkv (e :: t)
        ((cv, stv), bv) = processTransEntries liveResolver lang mkv t
          ((cv1, stv1), bv1) := by
      simp only [processTransEntries, List.foldl_cons]
      rw [show resolveTargets liveResolver lang mkv (processPayload e.word)
        ((cv, stv), bv) = ((cv1, stv1), bv1) from hrv]
    rw [hstep_d, hstep_v]
    exact ih cd1 cv1 stv1 bd1 bv1 h1 h2

lemma flushBatch_dry_s (cd : Cache) (std : Store) (bd : List (Nat × Nat))
    (stats : Stats) :
    (flushBatch dryResolver ⟨(cd, std), bd, stats⟩).s = (cd, std) := by
  by_cases hb : bd.isEmpty <;> simp [flushBatch, hb, dryResolver]

lemma flushBatch_live_cache (cv : Cache) (stv : Store)
    (bv : List (Nat × Nat)) (stats : Stats) :
    (flushBatch liveResolver ⟨(cv, stv), bv, stats⟩).s.1 = cv := by
  by_cases hb : bv.isEmpty <;> simp [flushBatch, hb, liveResolver]

lemma flushBatch_stats {σ : Type} (R : Resolver σ) (ls : LoopState σ) :
    (flushBatch R ls).stats =
      if ls.batch.isEmpty then ls.stats
      else { ls.stats with translation_pairs_batched :=
        ls.stats.translation_pairs_batched + ls.batch.length } := by
  by_cases hb : ls.batch.isEmpty <;> simp [flushBatch, hb, process_batch]

lemma maybeFlush_rel (N : Nat) (cd cv : Cache) (std stv : Store)
    (bd bv : List (Nat × Nat)) (stats : Stats)
    (hkeys : cd.map Prod.fst = cv.map Prod.fst)
    (hlen : bd.length = bv.length) :
    (maybeFlush dryResolver N ⟨(cd, std), bd, stats⟩).s.1.map Prod.fst =
      (maybeFlush liveResolver N ⟨(cv, stv), bv, stats⟩).s.1.map Prod.fst ∧
    (maybeFlush dryResolver N ⟨(cd, std), bd, stats⟩).batch.length =
      (maybeFlush liveResolver N ⟨(cv, stv), bv, stats⟩).batch.length ∧
    (maybeFlush dryResolver N ⟨(cd, std), bd, stats⟩).stats =
      (maybeFlush liveResolver N ⟨(cv, stv), bv, stats⟩).stats ∧
    (maybeFlush dryResolver N ⟨(cd, std), bd, stats⟩).s.2 = std := by
  have hbb : bd.isEmpty = bv.isEmpty := by
    rcases bd with _ | ⟨x, bd'⟩ <;> rcases bv with _ | ⟨y, bv'⟩ <;>
      simp_all
  by_cases h : N ≤ bd.length
  · have h' : N ≤ bv.length := hlen ▸ h
    have hd : maybeFlush dryResolver N ⟨(cd, std), bd, stats⟩ =
        flushBatch dryResolver ⟨(cd, std), bd, stats⟩ := if_pos h
    have hv : maybeFlush liveResolver N ⟨(cv, stv), bv, stats⟩ =
        flushBatch liveResolver ⟨(cv, stv), bv, stats⟩ := if_pos h'
    rw [hd, hv]
    refine ⟨?_, ?_, ?_, ?_⟩
    · rw [flushBatch_dry_s, flushBatch_live_cache]
      exact hkeys
    · rw [flushBatch_clears, flushBatch_clears]
    · rw [flushBatch_stats, flushBatch_stats]
      show (if bd.isEmpty then stats else _) = (if bv.isEmpty then stats else _)
      rw [hbb, hlen]
    · rw [flushBatch_dry_s]
  · have h' : ¬ N ≤ bv.length := hlen ▸ h
    have hd : maybeFlush dryResolver N ⟨(cd, std), bd, stats⟩ =
        ⟨(cd, std), bd, stats⟩ := if_neg h
    have hv : maybeFlush liveResolver N ⟨(cv, stv), bv, stats⟩ =
        ⟨(cv, stv), bv, stats⟩ := if_neg h'
    rw [hd, hv]
    exact ⟨hkeys, hlen, rfl, rfl⟩

lemma processLine_rel (N : Nat) (line : Line) (cd cv : Cache)
    (std stv : Store) (bd bv : List (Nat × Nat)) (stats : Stats)
    (hkeys : cd.map Prod.fst = cv.map Prod.fst)
    (hlen : bd.length = bv.length) :
    (processLine dryResolver N ⟨(cd, std), bd, stats⟩ line).s.1.map Prod.fst =
      (processLine liveResolver N ⟨(cv, stv), bv, stats⟩ line).s.1.map
        Prod.fst ∧
    (processLine dryResolver N ⟨(cd, std), bd, stats⟩ line).batch.length =
      (processLine liveResolver N ⟨(cv, stv), bv, stats⟩ line).batch.length ∧
    (processLine dryResolver N ⟨(cd, std), bd, stats⟩ line).stats =
      (processLine liveResolver N ⟨(cv, stv), bv, stats⟩ line).stats ∧
    (processLine dryResolver N ⟨(cd, std), bd, stats⟩ line).s.2 = std := by
  cases line with
  | parseError => exact ⟨hkeys, hlen, rfl, rfl⟩
  | json r =>
    by_cases hl : r.lang_code ≠ some "en"
    · refine ⟨?_, ?_, ?_, ?_⟩ <;>
        simp only [processLine, if_pos hl] <;>
        first
        | exact hkeys
        | exact hlen
        | rfl
    · rcases hw : r.word with _ | w
      · refine ⟨?_, ?_, ?_, ?_⟩ <;>
          simp only [processLine, if_neg hl, hw] <;>
          first
          | exact hkeys
          | exact hlen
          | rfl
      · by_cases he : (w == "") = true
        · refine ⟨?_, ?_, ?_, ?_⟩ <;>
            simp only [processLine, if_neg hl, hw, he, if_true] <;>
            first
            | exact hkeys
            | exact hlen
            | rfl
        · have he' : (w == "") = false := by
            rwa [Bool.not_eq_true] at he
          obtain ⟨hd1, hd2, hd3⟩ := dryResolve_spec cd std w "en"
          obtain ⟨hv1, hv2⟩ := liveResolve_spec cv stv w "en"
          rcases hrd : dryResolver.resolve (cd, std) w "en"
            with ⟨idd, ⟨cd1, std1⟩⟩
          rcases hrv : liveResolver.resolve (cv, stv) w "en"
            with ⟨idv, ⟨cv1, stv1⟩⟩
          rw [hrd] at hd1 hd2 hd3
          rw [hrv] at hv1 hv2
          rcases idd with _ | a
          · cases hd1
          rcases idv with _ | b
          · cases hv1
          have hd2' : std1 = std := hd2
          rw [hd2'] at hrd
          have hkeys1 : cd1.map Prod.fst = cv1.map Prod.fst := by
            rw [hd3, hv2]
            by_cases hn : Cache.find cd (strLower w, "en") = none
            · rw [if_pos hn, if_pos ((find_none_congr cd cv _ hkeys).mp hn),
                hkeys]
            · rw [if_neg hn,
                if_neg (fun hh => hn ((find_none_congr cd cv _ hkeys).mpr hh)),
                hkeys]
          simp only [processLine, if_neg hl, hw, he', Bool.false_eq_true,
            if_false, hrd, hrv]
          obtain ⟨g1, g2, g3⟩ := processTransEntries_rel "de"
            (fun d => (d, a)) (fun d => (d, b))
            (r.translations.filter (fun t => t.code == "de"))
            cd1 cv1 std stv1 bd bv hkeys1 hlen
          rcases hgd : processTransEntries dryResolver "de" (fun d => (d, a))
            (r.translations.filter (fun t => t.code == "de"))
            ((cd1, std), bd) with ⟨⟨cd2, std2⟩, bd2⟩
          rcases hgv : processTransEntries liveResolver "de" (fun d => (d, b))
            (r.translations.filter (fun t => t.code == "de"))
            ((cv1, stv1), bv) with ⟨⟨cv2, stv2⟩, bv2⟩
          rw [hgd] at g1 g2 g3
          rw [hgv] at g1 g2
          have g3' : std2 = std := g3
          subst std2
          obtain ⟨f1, f2, f3⟩ := processTransEntries_rel "fa"
            (fun f => (a, f)) (fun f => (b, f))
            (r.translations.filter (fun t => t.code == "fa"))
            cd2 cv2 std stv2 bd2 bv2 g1 g2
          rcases hfd : processTransEntries dryResolver "fa" (fun f => (a, f))
            (r.translations.filter (fun t => t.code == "fa"))
            ((cd2, std), bd2) with ⟨⟨cd3, std3⟩, bd3⟩
          rcases hfv : processTransEntries liveResolver "fa" (fun f => (b, f))
            (r.translations.filter (fun t => t.code == "fa"))
            ((cv2, stv2), bv2) with ⟨⟨cv3, stv3⟩, bv3⟩
          rw [hfd] at f1 f2 f3
          rw [hfv] at f1 f2
          have f3' : std3 = std := f3
          subst std3
          exact maybeFlush_rel N cd3 cv3 std stv3 bd3 bv3 _ f1 f2

lemma runLines_cons {σ : Type} (R : Resolver σ) (N : Nat)
    (ls : LoopState σ) (a : Line) (t : List Line) :
    runLines R N ls (a :: t) = runLines R N (processLine R N ls a) t := rfl

lemma runLines_rel (N : Nat) (lines : List Line) (cd cv : Cache)
    (std stv : Store) (bd bv : List (Nat × Nat)) (stats : Stats)
    (hkeys : cd.map Prod.fst = cv.map Prod.fst)
    (hlen : bd.length = bv.length) :
    (runLines dryResolver N ⟨(cd, std), bd, stats⟩ lines).s.1.map Prod.fst =
      (runLines liveResolver N ⟨(cv, stv), bv, stats⟩ lines).s.1.map
        Prod.fst ∧
    (runLines dryResolver N ⟨(cd, std), bd, stats⟩ lines).batch.length =
      (runLines liveResolver N ⟨(cv, stv), bv, stats⟩ lines).batch.length ∧
    (runLines dryResolver N ⟨(cd, std), bd, stats⟩ lines).stats =
      (runLines liveResolver N ⟨(cv, stv), bv, stats⟩ lines).stats ∧
    (runLines dryResolver N ⟨(cd, std), bd, stats⟩ lines).s.2 = std := by
  induction lines generalizing cd cv stv bd bv stats with
  | nil => exact ⟨hkeys, hlen, rfl, rfl⟩
  | cons a t ih =>
    obtain ⟨h1, h2, h3, h4⟩ := processLine_rel N a cd cv std stv bd bv stats
      hkeys hlen
    rcases hpd : processLine dryResolver N ⟨(cd, std), bd, stats⟩ a
      with ⟨⟨cd1, std1⟩, bd1, sd1⟩
    rcases hpv : processLine liveResolver N ⟨(cv, stv), bv, stats⟩ a
      with ⟨⟨cv1, stv1⟩, bv1, sv1⟩
    rw [hpd] at h1 h2 h3 h4
    rw [hpv] at h1 h2 h3
    have h3' : sd1 = sv1 := h3
    have h4' : std1 = std := h4
    rw [h3', h4'] at hpd
    rw [runLines_cons, runLines_cons, hpd, hpv]
    exact ih cd1 cv1 stv1 bd1 bv1 sv1 h1 h2

/-- C8: on the same input lines, a dry run and a fault-free live run (from
any initial store) produce identical counters — in particular the
English-entries counter and the batched-translation-pairs counter — while
the dry run leaves the store exactly as it was: no Word rows and no Edge
rows are created. -/
theorem c8_dry_run_equivalence (N : Nat) (lines : List Line)
    (std stv : Store) :
    (runImport dryResolver N ⟨([], std), [], initStats⟩ lines).stats =
      (runImport liveResolver N ⟨([], stv), [], initStats⟩ lines).stats ∧
    (runImport dryResolver N ⟨([], std), [], initStats⟩
      lines).stats.english_entries =
      (runImport liveResolver N ⟨([], stv), [], initStats⟩
        lines).stats.english_entries ∧
    (runImport dryResolver N ⟨([], std), [], initStats⟩
      lines).stats.translation_pairs_batched =
      (runImport liveResolver N ⟨([], stv), [], initStats⟩
        lines).stats.translation_pairs_batched ∧
    (runImport dryResolver N ⟨([], std), [], initStats⟩ lines).s.2.words =
      std.words ∧
    (runImport dryResolver N ⟨([], std), [], initStats⟩ lines).s.2.edges =
      std.edges := by
  obtain ⟨h1, h2, h3, h4⟩ := runLines_rel N lines [] [] std stv [] []
    initStats rfl rfl
  rcases hrd : runLines dryResolver N ⟨([], std), [], initStats⟩ lines
    with ⟨⟨cd1, std1⟩, bd1, sd1⟩
  rcases hrv : runLines liveResolver N ⟨([], stv), [], initStats⟩ lines
    with ⟨⟨cv1, stv1⟩, bv1, sv1⟩
  rw [hrd] at h1 h2 h3 h4
  rw [hrv] at h1 h2 h3
  have h3' : sd1 = sv1 := h3
  have h4' : std1 = std := h4
  rw [h3', h4'] at hrd
  have hbb : bd1.isEmpty = bv1.isEmpty := by
    rcases bd1 with _ | ⟨x, bd'⟩ <;> rcases bv1 with _ | ⟨y, bv'⟩ <;>
      simp_all
  rw [runImport, runImport, hrd, hrv]
  by_cases hb : bd1.isEmpty
  · rw [if_pos hb, if_pos (hbb ▸ hb)]
    exact ⟨rfl, rfl, rfl, rfl, rfl⟩
  · rw [if_neg hb, if_neg (hbb ▸ hb)]
    have hst : (flushBatch dryResolver ⟨(cd1, std), bd1, sv1⟩).stats =
        (flushBatch liveResolver ⟨(cv1, stv1), bv1, sv1⟩).stats := by
      rw [flushBatch_stats, flushBatch_stats]
      show (if bd1.isEmpty then sv1 else _) = (if bv1.isEmpty then sv1 else _)
      rw [hbb, h2]
    have hs2 : (flushBatch dryResolver ⟨(cd1, std), bd1, sv1⟩).s.2 = std := by
      rw [flushBatch_dry_s]
    exact ⟨hst, congrArg Stats.english_entries hst,
      congrArg Stats.translation_pairs_batched hst,
      congrArg Store.words hs2, congrArg Store.edges hs2⟩

end Wiktextract
